import Mathlib

/-!
Verification of the a3modlink link-state engine (`a3modlink.py`).

The script reconciles a directory of digit-named content folders against a
directory of symbolic links.  We shallowly embed its pure core:

* `sanitise_path`   — the name sanitizer (`sanitise_path` in the source);
* `read_mods`       — scanner of digit-named content subdirectories;
* `read_links`      — scanner of resolvable symbolic links;
* `link_mod`        — link creation for one identifier;
* `unlink_mod`      — removal of requested links;
* `remove_broken_links` — pruning of dead links;
* `mainAdd` / `syncAll` — the `--add` dispatch of `main`.

The filesystem is modelled as an explicit state (`FS`): the content root with
its immediate children, the links root with its entries, and the set of paths
that exist on disk.  Each symlink entry carries the result of `Path.resolve()`
as an `Option String` (`none` models the `OSError` during resolution that the
source catches and skips).  The Steam title lookup (`get_mod_title`) is an
external collaborator and is passed in as a function `String → Option String`
(`none` models every failure mode, which the source collapses to `None`).
-/

namespace A3ModLink

/-! ## Name sanitizer (`sanitise_path`, source lines 34–57) -/

/-- A character matched by the regex class `[a-zA-Z0-9_]` of
`re.sub(r"[^a-zA-Z0-9_]", "_", path)`. -/
def safeChar (c : Char) : Bool :=
  ('a' ≤ c && c ≤ 'z') || ('A' ≤ c && c ≤ 'Z') || ('0' ≤ c && c ≤ '9') || c = '_'

/-- `re.sub(r"[^a-zA-Z0-9_]", "_", path)`: replace every character outside the
class with an underscore. -/
def replaceUnsafe (l : List Char) : List Char :=
  l.map (fun c => if safeChar c then c else '_')

/-- Worker for `re.sub(r"_+", "_", sanitized)`: walk the list remembering the
previously emitted character; an underscore directly after an emitted
underscore is dropped, so each maximal run of underscores is emitted once. -/
def collapseAux : Option Char → List Char → List Char
  | _, [] => []
  | prev, c :: rest =>
    if c = '_' ∧ prev = some '_' then collapseAux prev rest
    else c :: collapseAux (some c) rest

/-- `re.sub(r"_+", "_", sanitized)`: collapse each run of underscores. -/
def collapseUnderscores (l : List Char) : List Char :=
  collapseAux none l

/-- `sanitise_path` on the character list of the input string, following the
source: empty input is returned as-is, otherwise replace then collapse. -/
def sanitiseList (l : List Char) : List Char :=
  if l = [] then l else collapseUnderscores (replaceUnsafe l)

/-- `sanitise_path` (source lines 34–57). -/
def sanitise_path (s : String) : String :=
  ⟨sanitiseList s.data⟩

/-! Specification-side sanitizer, written from the spec's own words
("every character outside `[A-Za-z0-9_]` is replaced with `_`", then "runs of
two or more `_` collapse to a single `_`"), for the refinement claim. -/

/-- Collapse written the way the spec words it: each run of underscores
(the head underscore plus every directly following one) becomes one. -/
def collapseRunsSpec : List Char → List Char
  | [] => []
  | c :: rest =>
    if c = '_' then '_' :: collapseRunsSpec (rest.dropWhile (fun d => d = '_'))
    else c :: collapseRunsSpec rest
termination_by l => l.length
decreasing_by
  · exact Nat.lt_succ_of_le (List.dropWhile_sublist _).length_le
  · exact Nat.lt_succ_of_le (Nat.le_refl _)

/-- The spec's reference sanitizer: replace characters outside the class,
then collapse underscore runs; the empty string maps to itself. -/
def sanitiseSpec (s : String) : String :=
  ⟨collapseRunsSpec (s.data.map (fun c => if safeChar c then c else '_'))⟩

/-! ## Filesystem model -/

/-- One immediate entry of the links root.  A symlink entry carries its raw
target string and the result of `Path.resolve()` on it (`none` models the
`OSError` during resolution that `read_links` catches); `real` is any
non-symlink entry (a regular file or directory). -/
inductive LinkEnt where
  | symlink (name : String) (target : String) (res : Option String)
  | real (name : String)
deriving DecidableEq, Repr

/-- The filename of a links-root entry. -/
def entName : LinkEnt → String
  | .symlink n _ _ => n
  | .real n => n

/-- Whether an entry is a symbolic link (`Path.is_symlink()`). -/
def isSymlinkEnt : LinkEnt → Bool
  | .symlink _ _ _ => true
  | .real _ => false

/-- Filesystem state seen by the script: the content (mods) root, the links
root, and the set of absolute paths that exist on disk (used for target
existence checks). -/
structure FS where
  /-- `Path(mods_dir).exists()` -/
  modsDirItExists : Bool
  /-- `Path(mods_dir).is_dir()` -/
  modsDirIsDir : Bool
  /-- `str(Path(mods_dir).resolve())` -/
  modsAbs : String
  /-- immediate children of the mods root: `(name, is_dir)` -/
  modsEntries : List (String × Bool)
  /-- `Path(links_dir).exists()` -/
  linksDirItExists : Bool
  /-- immediate children of the links root -/
  links : List LinkEnt
  /-- absolute paths that exist on disk (`Path(p).exists()` for targets) -/
  diskPaths : List String
deriving DecidableEq, Repr

/-- The Unicode code-point ranges on which CPython's `str.isdigit()` holds
for a single character: characters of Numeric_Type Decimal (category `Nd`,
the decimal digits of every script) or Numeric_Type Digit (superscripts,
subscripts and the like), enumerated from the Unicode 14 character
database that CPython ships. -/
def pyDigitRanges : List (Nat × Nat) :=
  [(0x30, 0x39), (0xb2, 0xb3), (0xb9, 0xb9), (0x660, 0x669), (0x6f0, 0x6f9),
   (0x7c0, 0x7c9), (0x966, 0x96f), (0x9e6, 0x9ef), (0xa66, 0xa6f),
   (0xae6, 0xaef), (0xb66, 0xb6f), (0xbe6, 0xbef), (0xc66, 0xc6f),
   (0xce6, 0xcef), (0xd66, 0xd6f), (0xde6, 0xdef), (0xe50, 0xe59),
   (0xed0, 0xed9), (0xf20, 0xf29), (0x1040, 0x1049), (0x1090, 0x1099),
   (0x1369, 0x1371), (0x17e0, 0x17e9), (0x1810, 0x1819), (0x1946, 0x194f),
   (0x19d0, 0x19da), (0x1a80, 0x1a89), (0x1a90, 0x1a99), (0x1b50, 0x1b59),
   (0x1bb0, 0x1bb9), (0x1c40, 0x1c49), (0x1c50, 0x1c59), (0x2070, 0x2070),
   (0x2074, 0x2079), (0x2080, 0x2089), (0x2460, 0x2468), (0x2474, 0x247c),
   (0x2488, 0x2490), (0x24ea, 0x24ea), (0x24f5, 0x24fd), (0x24ff, 0x24ff),
   (0x2776, 0x277e), (0x2780, 0x2788), (0x278a, 0x2792), (0xa620, 0xa629),
   (0xa8d0, 0xa8d9), (0xa900, 0xa909), (0xa9d0, 0xa9d9), (0xa9f0, 0xa9f9),
   (0xaa50, 0xaa59), (0xabf0, 0xabf9), (0xff10, 0xff19), (0x104a0, 0x104a9),
   (0x10a40, 0x10a43), (0x10d30, 0x10d39), (0x10e60, 0x10e68),
   (0x11052, 0x1105a), (0x11066, 0x1106f), (0x110f0, 0x110f9),
   (0x11136, 0x1113f), (0x111d0, 0x111d9), (0x112f0, 0x112f9),
   (0x11450, 0x11459), (0x114d0, 0x114d9), (0x11650, 0x11659),
   (0x116c0, 0x116c9), (0x11730, 0x11739), (0x118e0, 0x118e9),
   (0x11950, 0x11959), (0x11c50, 0x11c59), (0x11d50, 0x11d59),
   (0x11da0, 0x11da9), (0x16a60, 0x16a69), (0x16ac0, 0x16ac9),
   (0x16b50, 0x16b59), (0x1d7ce, 0x1d7ff), (0x1e140, 0x1e149),
   (0x1e2f0, 0x1e2f9), (0x1e950, 0x1e959), (0x1f100, 0x1f10a),
   (0x1fbf0, 0x1fbf9)]

/-- A single character accepted by CPython's `str.isdigit()`. -/
def pyIsdigitChar (c : Char) : Bool :=
  pyDigitRanges.any (fun r => r.1 ≤ c.toNat && c.toNat ≤ r.2)

/-- `str.isdigit()`: non-empty and every character a Unicode digit
(decimal digits of any script, superscripts, subscripts, ...), not only
ASCII `0`-`9`. -/
def isdigitStr (s : String) : Bool :=
  !s.data.isEmpty && s.data.all pyIsdigitChar

/-- The spec's `^[0-9]+$` test, written from the spec's words: at least one
character and every character between `'0'` and `'9'`. -/
def matchesDigitRegex (s : String) : Bool :=
  !s.data.isEmpty && s.data.all (fun c => '0' ≤ c && c ≤ '9')

/-! ## Directory scanner -/

/-- `read_mods` (source lines 60–88): raise `ValueError` when the mods root
is missing or not a directory, else list the digit-named subdirectories. -/
def read_mods (fs : FS) : Except String (List String) :=
  if !fs.modsDirItExists || !fs.modsDirIsDir then
    .error "Mods directory does not exist"
  else
    .ok ((fs.modsEntries.filter (fun e => e.2 && isdigitStr e.1)).map (fun e => e.1))

/-- `read_links` (source lines 91–125): empty when the links root is absent;
otherwise each symlink entry whose `resolve()` succeeds contributes
`(name, resolved target)`; an entry whose `resolve()` raises `OSError` is
skipped (`continue`).  `sort` sorts the pairs by name as
`dict(sorted(results.items()))` does. -/
def read_links (fs : FS) (sort : Bool) : List (String × String) :=
  if !fs.linksDirItExists then []
  else
    let results := fs.links.filterMap (fun e =>
      match e with
      | .symlink n _ (some r) => some (n, r)
      | .symlink _ _ none => none
      | .real _ => none)
    if sort then results.mergeSort (fun a b => a.1 ≤ b.1) else results

/-! ## Reconciliation engine -/

/-- Outcome of `link_mod` for one identifier, refining its boolean result by
the branch taken: `unresolved` and `sourceMissing` and `createFailed` are the
`False` returns, `created` and `alreadyLinked` (the `errno.EEXIST` branch)
are the `True` returns. -/
inductive LinkOutcome where
  | created
  | alreadyLinked
  | unresolved
  | sourceMissing
  | createFailed
deriving DecidableEq, Repr

/-- `sanitise_path(get_mod_title(mod_id))`: `get_mod_title` may fail
(`None`), and `sanitise_path(None)` returns `None` via its falsy guard. -/
def linkName (resolve : String → Option String) (mod_id : String) :
    Option String :=
  (resolve mod_id).map sanitise_path

/-- `str(Path(mods_dir).resolve() / str(mod_id))`. -/
def modsChild (fs : FS) (mod_id : String) : String :=
  fs.modsAbs ++ "/" ++ mod_id

/-- `source_path.exists()` for `source_path = mods_dir/<mod_id>`: the mods
root is a directory holding a child of that name (of any kind). -/
def sourceExists (fs : FS) (mod_id : String) : Bool :=
  fs.modsDirItExists && fs.modsDirIsDir
    && fs.modsEntries.any (fun e => e.1 = mod_id)

/-- `link_mod` (source lines 161–203). -/
def link_mod (resolve : String → Option String) (mod_id : String) (fs : FS) :
    LinkOutcome × FS :=
  match linkName resolve mod_id with
  | none => (.unresolved, fs)
  | some title =>
    if title = "" then (.unresolved, fs)
    else if !sourceExists fs mod_id then (.sourceMissing, fs)
    else if !fs.linksDirItExists then (.createFailed, fs)
    else if fs.links.any (fun e => entName e = title) then (.alreadyLinked, fs)
    else
      (.created,
        { fs with links :=
            fs.links ++
              [.symlink title (modsChild fs mod_id) (some (modsChild fs mod_id))] })

/-- Outcome of `unlink_mod` for one requested title. -/
inductive UnlinkOutcome where
  | removed
  | notFound
deriving DecidableEq, Repr

/-- `link_path.exists()` — follows the symlink: true for a non-symlink entry,
and for a symlink entry exactly when its resolution succeeded and the
resolved path exists on disk. -/
def linkPathItExists (fs : FS) : LinkEnt → Bool
  | .symlink _ _ (some r) => fs.diskPaths.contains r
  | .symlink _ _ none => false
  | .real _ => true

/-- One iteration of the `unlink_mod` loop (source lines 224–233). -/
def unlinkOne (title : String) (fs : FS) : UnlinkOutcome × FS :=
  match fs.links.find? (fun e => entName e = title) with
  | none => (.notFound, fs)
  | some e =>
    if linkPathItExists fs e && isSymlinkEnt e then
      (.removed, { fs with links := fs.links.filter (fun e2 => !(entName e2 = title)) })
    else (.notFound, fs)

/-- `unlink_mod` (source lines 206–233): process each requested title in
order, collecting per-title outcomes. -/
def unlink_mod : List String → FS → List (String × UnlinkOutcome) × FS
  | [], fs => ([], fs)
  | t :: ts, fs =>
    let r1 := unlinkOne t fs
    let rest := unlink_mod ts r1.2
    ((t, r1.1) :: rest.1, rest.2)

/-- The loop of `remove_broken_links` over the pairs from `read_links`:
for each listed `(name, target)` with `Path(target).exists()` false, unlink
the entry of that name and count it. -/
def pruneLoop (disk : List String) :
    List (String × String) → List LinkEnt → Nat × List LinkEnt
  | [], ls => (0, ls)
  | p :: rest, ls =>
    if disk.contains p.2 then pruneLoop disk rest ls
    else
      let r := pruneLoop disk rest (ls.filter (fun e => !(entName e = p.1)))
      (r.1 + 1, r.2)

/-- `remove_broken_links` (source lines 236–267): returns the count of pruned
links and the final state. -/
def remove_broken_links (fs : FS) : Nat × FS :=
  let listed := read_links fs false
  let r := pruneLoop fs.diskPaths listed fs.links
  (r.1, { fs with links := r.2 })

/-- A links-root entry the pruning loop is meant to remove, per the code: a
symlink whose resolution succeeded and whose resolved target is absent. -/
def prunable (fs : FS) : LinkEnt → Bool
  | .symlink _ _ (some r) => !fs.diskPaths.contains r
  | .symlink _ _ none => false
  | .real _ => false

/-! ## Command surface (`main`, source lines 341–344) -/

/-- `mod_ids = args.add if args.add else read_mods(args.mods_dir)`: an empty
`--add` list falls back to every content identifier. -/
def mainAdd (addIds : List String) (fs : FS) : Except String (List String) :=
  if addIds.isEmpty then read_mods fs else .ok addIds

/-- `SyncAll`: the behavior of `add` with no explicit identifiers. -/
def syncAll (fs : FS) : Except String (List String) :=
  mainAdd [] fs

/-! Specification-side definitions for the `SyncAll` symmetric-difference
claim, written from the spec's words. -/

/-- The trailing path segment of a link target (the identifier embedded in
the target path), per the spec's `linkedIds` description. -/
def lastSegment (s : String) : String :=
  ⟨(s.data.reverse.takeWhile (fun c => !(c = '/'))).reverse⟩

/-- The spec's `linkedIds`: trailing segments of the existing link targets. -/
def linkedIdsSpec (fs : FS) : List String :=
  (read_links fs false).map (fun p => lastSegment p.2)

/-- The spec's `pending = contentIds Δ linkedIds`: identifiers present in
exactly one of the two sets (empty on a scanner error). -/
def symmDiffSpec (fs : FS) : List String :=
  match read_mods fs with
  | .error _ => []
  | .ok cs =>
      cs.filter (fun i => !(linkedIdsSpec fs).contains i)
        ++ (linkedIdsSpec fs).filter (fun i => !cs.contains i)

/-! ## Concrete states used by counterexamples and witnesses -/

/-- Content ids `{1, 2, 3}`, linked ids `{2, 3, 4}` (the spec's own
symmetric-difference example). -/
def cFS1 : FS :=
  { modsDirItExists := true, modsDirIsDir := true, modsAbs := "/m"
    modsEntries := [("1", true), ("2", true), ("3", true)]
    linksDirItExists := true
    links := [LinkEnt.symlink "a" "/m/2" (some "/m/2"),
              LinkEnt.symlink "b" "/m/3" (some "/m/3"),
              LinkEnt.symlink "c" "/m/4" (some "/m/4")]
    diskPaths := ["/m/2", "/m/3"] }

/-- A links root holding one symlink whose resolution raised `OSError`. -/
def cFS2 : FS :=
  { modsDirItExists := true, modsDirIsDir := true, modsAbs := "/m"
    modsEntries := []
    linksDirItExists := true
    links := [LinkEnt.symlink "bad" "/gone/deep" none]
    diskPaths := [] }

/-- A resolver that knows identifier `7` only. -/
def cRes : String → Option String :=
  fun id => if id = "7" then some "Foo Bar" else none

/-- A content root holding directory `7` and an empty links root. -/
def cFS3 : FS :=
  { modsDirItExists := true, modsDirIsDir := true, modsAbs := "/m"
    modsEntries := [("7", true)]
    linksDirItExists := true
    links := []
    diskPaths := ["/m/7"] }

/-- A resolver that knows identifier `5` only. -/
def cRes4 : String → Option String :=
  fun id => if id = "5" then some "mod five" else none

/-- A content root whose entry `5` is a regular file, not a directory. -/
def cFS4 : FS :=
  { modsDirItExists := true, modsDirIsDir := true, modsAbs := "/m"
    modsEntries := [("5", false)]
    linksDirItExists := true
    links := []
    diskPaths := [] }

/-- One valid link, one dead-target link, and one link whose resolution
raised `OSError` over an absent target. -/
def cFS5 : FS :=
  { modsDirItExists := true, modsDirIsDir := true, modsAbs := "/m"
    modsEntries := [("3", true)]
    linksDirItExists := true
    links := [LinkEnt.symlink "ok" "/m/3" (some "/m/3"),
              LinkEnt.symlink "dead" "/m/4" (some "/m/4"),
              LinkEnt.symlink "odd" "/gone/x" none]
    diskPaths := ["/m/3"] }

/-- A links root holding a real directory named `moddir`. -/
def cFS6 : FS :=
  { modsDirItExists := true, modsDirIsDir := true, modsAbs := "/m"
    modsEntries := []
    linksDirItExists := true
    links := [LinkEnt.real "moddir"]
    diskPaths := [] }

/-- A links root holding one dangling symlink named `dang`. -/
def cFS7 : FS :=
  { modsDirItExists := true, modsDirIsDir := true, modsAbs := "/m"
    modsEntries := []
    linksDirItExists := true
    links := [LinkEnt.symlink "dang" "/m/9" (some "/m/9")]
    diskPaths := [] }

/-- Content subdirectories `123`, `abc`, `45a` (the spec's scanner example). -/
def cFS10 : FS :=
  { modsDirItExists := true, modsDirIsDir := true, modsAbs := "/m"
    modsEntries := [("123", true), ("abc", true), ("45a", true)]
    linksDirItExists := true
    links := []
    diskPaths := [] }

/-- Content root with a single subdirectory named with the Arabic-Indic
digit three (U+0663), a character `str.isdigit()` accepts. -/
def cFS10b : FS :=
  { modsDirItExists := true, modsDirIsDir := true, modsAbs := "/m"
    modsEntries := [("٣", true)]
    linksDirItExists := true
    links := []
    diskPaths := [] }

/-! ## Sanitizer lemmas -/

theorem collapseRunsSpec_nil : collapseRunsSpec [] = [] := by
  rw [collapseRunsSpec.eq_def]

theorem collapseRunsSpec_cons (c : Char) (rest : List Char) :
    collapseRunsSpec (c :: rest) =
      if c = '_' then '_' :: collapseRunsSpec (rest.dropWhile (fun d => d = '_'))
      else c :: collapseRunsSpec rest := by
  rw [collapseRunsSpec.eq_def]

theorem mem_collapseAux {a : Char} : ∀ (l : List Char) (p : Option Char),
    a ∈ collapseAux p l → a ∈ l := by
  intro l
  induction l with
  | nil => intro p h; simp [collapseAux] at h
  | cons c rest ih =>
    intro p h
    simp only [collapseAux] at h
    split at h
    · exact List.mem_cons_of_mem _ (ih _ h)
    · rcases List.mem_cons.mp h with h1 | h2
      · exact h1 ▸ List.mem_cons_self _ _
      · exact List.mem_cons_of_mem _ (ih _ h2)

theorem collapseAux_idem : ∀ (l : List Char) (p : Option Char),
    collapseAux p (collapseAux p l) = collapseAux p l := by
  intro l
  induction l with
  | nil => intro p; simp [collapseAux]
  | cons c rest ih =>
    intro p
    simp only [collapseAux]
    split
    · exact ih p
    · simp only [collapseAux]
      split
      · rename_i hcond hcond2
        exact absurd hcond2 hcond
      · rw [ih (some c)]

theorem safeChar_underscore : safeChar '_' = true := by decide

theorem mem_replaceUnsafe_safe {a : Char} {l : List Char}
    (h : a ∈ replaceUnsafe l) : safeChar a = true := by
  rcases List.mem_map.mp h with ⟨c, _, hc⟩
  subst hc
  by_cases hs : safeChar c
  · simp [hs]
  · simp [hs, safeChar_underscore]

theorem replaceUnsafe_of_safe {l : List Char}
    (h : ∀ a ∈ l, safeChar a = true) : replaceUnsafe l = l := by
  unfold replaceUnsafe
  rw [List.map_congr_left (fun a ha => by rw [if_pos (h a ha)])]
  exact List.map_id l

theorem collapseAux_ne_nil (c : Char) (rest : List Char) :
    collapseAux none (c :: rest) ≠ [] := by
  simp only [collapseAux]
  split
  · rename_i hcond
    exact absurd hcond.2 (by simp)
  · exact List.cons_ne_nil _ _

theorem sanitiseList_of_ne_nil {l : List Char} (h : l ≠ []) :
    sanitiseList l = collapseUnderscores (replaceUnsafe l) :=
  if_neg h

theorem sanitiseList_idem (l : List Char) :
    sanitiseList (sanitiseList l) = sanitiseList l := by
  by_cases hl : l = []
  · simp [hl, sanitiseList]
  · have h1 : sanitiseList l = collapseUnderscores (replaceUnsafe l) :=
      sanitiseList_of_ne_nil hl
    rcases hr : replaceUnsafe l with _ | ⟨c, rest⟩
    · exact absurd (List.map_eq_nil_iff.mp hr) hl
    · have hne : sanitiseList l ≠ [] := by
        rw [h1, hr]; exact collapseAux_ne_nil c rest
      have hsafe : ∀ a ∈ sanitiseList l, safeChar a = true := by
        intro a ha
        rw [h1] at ha
        exact mem_replaceUnsafe_safe (mem_collapseAux _ _ ha)
      calc sanitiseList (sanitiseList l)
          = collapseUnderscores (replaceUnsafe (sanitiseList l)) :=
            sanitiseList_of_ne_nil hne
        _ = collapseUnderscores (sanitiseList l) := by
            rw [replaceUnsafe_of_safe hsafe]
        _ = collapseAux none (collapseAux none (replaceUnsafe l)) := by
            rw [h1]; rfl
        _ = collapseAux none (replaceUnsafe l) := collapseAux_idem _ _
        _ = sanitiseList l := h1.symm

theorem collapseAux_eq_spec : ∀ (l : List Char) (p : Option Char),
    collapseAux p l =
      if p = some '_' then collapseRunsSpec (l.dropWhile (fun d => d = '_'))
      else collapseRunsSpec l := by
  intro l
  induction l with
  | nil =>
    intro p
    simp [collapseAux, collapseRunsSpec_nil, List.dropWhile_nil]
  | cons c rest ih =>
    intro p
    by_cases hp : p = some '_'
    · rw [if_pos hp]
      by_cases hc : c = '_'
      · subst hc
        simp only [collapseAux]
        rw [if_pos (And.intro trivial hp), List.dropWhile_cons,
          if_pos (by simp), ih p, if_pos hp]
      · simp only [collapseAux]
        rw [if_neg (fun h => hc h.1), List.dropWhile_cons,
          if_neg (by simpa using hc), collapseRunsSpec_cons, if_neg hc,
          ih (some c), if_neg (by simpa using hc)]
    · rw [if_neg hp]
      simp only [collapseAux]
      rw [if_neg (fun h => hp h.2)]
      by_cases hc : c = '_'
      · subst hc
        rw [collapseRunsSpec_cons, if_pos rfl, ih (some '_'), if_pos rfl]
      · rw [collapseRunsSpec_cons, if_neg hc, ih (some c),
          if_neg (by simpa using hc)]

theorem sanitiseList_eq_spec (l : List Char) :
    sanitiseList l = collapseRunsSpec (replaceUnsafe l) := by
  by_cases hl : l = []
  · simp [hl, sanitiseList, replaceUnsafe, collapseRunsSpec_nil]
  · rw [sanitiseList_of_ne_nil hl, collapseUnderscores,
      collapseAux_eq_spec, if_neg (by simp)]

/-- C8: `sanitise_path` is idempotent: for every string `s`,
`sanitise_path (sanitise_path s) = sanitise_path s`. -/
theorem sanitise_path_idempotent (s : String) :
    sanitise_path (sanitise_path s) = sanitise_path s :=
  congrArg String.mk (sanitiseList_idem s.data)

/-- C9: `sanitise_path` equals the spec's reference definition (replace every
character outside `[A-Za-z0-9_]` with `_`, then collapse each run of two or
more `_` to one), the empty string maps to itself, and
`sanitise_path "My Mod @Home v1.2" = "My_Mod_Home_v1_2"`. -/
theorem sanitise_path_matches_spec :
    (∀ s : String, sanitise_path s = sanitiseSpec s) ∧
    sanitise_path "" = "" ∧
    sanitise_path "My Mod @Home v1.2" = "My_Mod_Home_v1_2" :=
  ⟨fun s => congrArg String.mk (sanitiseList_eq_spec s.data), rfl, by decide⟩

/-- C8 witness: idempotence at a concrete input. -/
theorem sanitise_path_idempotent_witness :
    sanitise_path (sanitise_path "My Mod @Home v1.2")
      = sanitise_path "My Mod @Home v1.2" :=
  sanitise_path_idempotent "My Mod @Home v1.2"

/-- C9 witness: agreement with the reference definition at a concrete
input. -/
theorem sanitise_path_matches_spec_witness :
    sanitise_path "a  b__c!" = sanitiseSpec "a  b__c!" :=
  sanitise_path_matches_spec.1 "a  b__c!"

/-! ## Scanner lemmas -/

theorem pyIsdigitChar_of_ascii {c : Char} (h0 : '0' ≤ c) (h9 : c ≤ '9') :
    pyIsdigitChar c = true := by
  unfold pyIsdigitChar
  apply List.any_eq_true.mpr
  refine ⟨(0x30, 0x39), List.mem_cons_self _ _, ?_⟩
  have hh0 : 0x30 ≤ c.toNat := h0
  have hh9 : c.toNat ≤ 0x39 := h9
  simp [hh0, hh9]

theorem isdigitStr_of_regex {id : String}
    (h : matchesDigitRegex id = true) : isdigitStr id = true := by
  have h2 : id.data.isEmpty = false ∧
      ∀ c ∈ id.data, '0' ≤ c ∧ c ≤ '9' := by
    simpa [matchesDigitRegex, List.all_eq_true] using h
  unfold isdigitStr
  simp only [h2.1, Bool.not_false, Bool.true_and]
  apply List.all_eq_true.mpr
  intro c hc
  exact pyIsdigitChar_of_ascii (h2.2 c hc).1 (h2.2 c hc).2

theorem read_mods_ok_mem {fs : FS} {ids : List String}
    (h : read_mods fs = .ok ids) (id : String) :
    id ∈ ids ↔ ((id, true) ∈ fs.modsEntries ∧ isdigitStr id = true) := by
  unfold read_mods at h
  split at h
  · cases h
  · cases h
    constructor
    · intro hmem
      rcases List.mem_map.mp hmem with ⟨e, he, hfst⟩
      rcases List.mem_filter.mp he with ⟨hel, hpred⟩
      have hpred2 : e.2 = true ∧ isdigitStr e.1 = true := by simpa using hpred
      refine ⟨?_, hfst ▸ hpred2.2⟩
      have : e = (id, true) := by
        rcases e with ⟨n, b⟩
        have hb : b = true := hpred2.1
        simp only at hfst
        simp [hfst, hb]
      exact this ▸ hel
    · rintro ⟨hmem, hdig⟩
      exact List.mem_map.mpr
        ⟨(id, true), List.mem_filter.mpr ⟨hmem, by simp [hdig]⟩, rfl⟩

/-- C10 counterexample: the subdirectory named `٣` (the Arabic-Indic digit
three, U+0663) is returned by `read_mods` — Python's `str.isdigit()` accepts
it — although its name does not match `^[0-9]+$`, so the scanner does not
return exactly the `^[0-9]+$`-matching names. -/
theorem read_mods_isdigit_counterexample :
    ("٣", true) ∈ cFS10b.modsEntries ∧
    read_mods cFS10b = .ok ["٣"] ∧
    matchesDigitRegex "٣" = false :=
  ⟨by decide, rfl, by decide⟩

/-- C10 (amended): `read_mods` fails when the content root does not exist or
is not a directory; otherwise it returns exactly the immediate subdirectory
names that satisfy Python's `str.isdigit()` — non-directory entries and
names holding any non-digit character are silently excluded.  That filter is
a superset of `^[0-9]+$`: every name matching the regex is returned, but
names written with non-ASCII Unicode digits are returned as well. -/
theorem read_mods_spec (fs : FS) :
    (read_mods fs = .error "Mods directory does not exist" ↔
      (fs.modsDirItExists && fs.modsDirIsDir) = false) ∧
    (∀ ids, read_mods fs = .ok ids → ∀ id,
      id ∈ ids ↔ ((id, true) ∈ fs.modsEntries ∧ isdigitStr id = true)) ∧
    (∀ id, matchesDigitRegex id = true → isdigitStr id = true) := by
  refine ⟨?_, ?_, ?_⟩
  · cases hA : fs.modsDirItExists <;> cases hB : fs.modsDirIsDir <;>
      simp [read_mods, hA, hB]
  · intro ids h id
    exact read_mods_ok_mem h id
  · intro id h
    exact isdigitStr_of_regex h

/-- C10 witness: on subdirectories `{123, abc, 45a}` the scanner returns
exactly `{123}`, and the regex-matching name `123` passes the `isdigit`
filter. -/
theorem read_mods_spec_witness :
    read_mods cFS10 = .ok ["123"] ∧
    ("123" ∈ ["123"] ↔
      (("123", true) ∈ cFS10.modsEntries ∧ isdigitStr "123" = true)) ∧
    isdigitStr "123" = true :=
  ⟨rfl, (read_mods_spec cFS10).2.1 ["123"] rfl "123",
   (read_mods_spec cFS10).2.2 "123" (by decide)⟩

/-! ## SyncAll (`add` with no identifiers) -/

/-- C1 counterexample: with content ids `{1, 2, 3}` and linked ids
`{2, 3, 4}`, the `add`-with-no-identifiers path invokes `link_mod` on
`{1, 2, 3}`, not on the symmetric difference `{1, 4}`: identifier `2` is in
both sets yet attempted, and identifier `4` is in the symmetric difference
yet never attempted. -/
theorem syncAll_not_symmdiff_counterexample :
    syncAll cFS1 = .ok ["1", "2", "3"] ∧
    symmDiffSpec cFS1 = ["1", "4"] ∧
    ("2" ∈ ["1", "2", "3"] ∧ "2" ∉ symmDiffSpec cFS1) ∧
    ("4" ∈ symmDiffSpec cFS1 ∧ "4" ∉ ["1", "2", "3"]) :=
  ⟨rfl, rfl, ⟨by decide, by decide⟩, ⟨by decide, by decide⟩⟩

/-- C1 (amended): `SyncAll` invokes `link_mod` exactly for the content-entry
identifiers (the digit-named subdirectories of the content root), independent
of the existing links: the links root plays no part in the selection, so an
identifier present in both sets is still attempted and an identifier present
only among link targets is never attempted. -/
theorem syncAll_invokes_content_ids (fs : FS) :
    syncAll fs = read_mods fs ∧
    (∀ ls le dp,
      syncAll { fs with links := ls, linksDirItExists := le, diskPaths := dp }
        = syncAll fs) ∧
    (∀ ids, read_mods fs = .ok ids → ∀ id,
      id ∈ ids ↔ ((id, true) ∈ fs.modsEntries ∧ isdigitStr id = true)) :=
  ⟨rfl, fun _ _ _ => rfl, fun _ h id => read_mods_ok_mem h id⟩

/-- C1 witness: at the state of the counterexample, `SyncAll` returns the
content identifiers and `2` is selected because it is a digit-named content
subdirectory. -/
theorem syncAll_invokes_content_ids_witness :
    syncAll cFS1 = read_mods cFS1 ∧
    ("2" ∈ ["1", "2", "3"] ↔
      (("2", true) ∈ cFS1.modsEntries ∧ isdigitStr "2" = true)) :=
  ⟨(syncAll_invokes_content_ids cFS1).1,
   (syncAll_invokes_content_ids cFS1).2.2 ["1", "2", "3"] rfl "2"⟩

/-! ## Link scanner (`read_links`) -/

/-- C2 counterexample: a symlink entry whose target resolution raised
`OSError` is omitted from the `read_links` result (the `continue` branch),
not returned with a `Broken` validity. -/
theorem read_links_omits_unresolvable_counterexample :
    LinkEnt.symlink "bad" "/gone/deep" none ∈ cFS2.links ∧
    isSymlinkEnt (LinkEnt.symlink "bad" "/gone/deep" none) = true ∧
    read_links cFS2 false = [] ∧ read_links cFS2 true = [] :=
  ⟨by decide, rfl, rfl, by simp [read_links, cFS2]⟩

theorem read_links_mem_char (fs : FS) (sort : Bool) (p : String × String) :
    p ∈ read_links fs sort ↔
      (fs.linksDirItExists = true ∧
        ∃ raw, LinkEnt.symlink p.1 raw (some p.2) ∈ fs.links) := by
  unfold read_links
  cases hdir : fs.linksDirItExists with
  | false =>
    simp
  | true =>
    simp only [Bool.not_true, Bool.false_eq_true, if_false, true_and]
    have hperm :
        ∀ l : List (String × String),
          p ∈ (if sort then l.mergeSort (fun a b => a.1 ≤ b.1) else l) ↔ p ∈ l := by
      intro l
      cases sort with
      | false => simp
      | true =>
        rw [if_pos rfl]
        exact (List.mergeSort_perm l (fun a b => a.1 ≤ b.1)).mem_iff
    rw [hperm]
    constructor
    · intro h
      rcases List.mem_filterMap.mp h with ⟨e, he, hfe⟩
      cases e with
      | symlink n t res =>
        cases res with
        | some r =>
          have : (n, r) = p := by simpa using hfe
          exact ⟨t, this ▸ he⟩
        | none => simp at hfe
      | real n => simp at hfe
    · rintro ⟨raw, hmem⟩
      exact List.mem_filterMap.mpr ⟨LinkEnt.symlink p.1 raw (some p.2), hmem, rfl⟩

/-- C2 (amended): `read_links` never raises (it is a total function of the
state) and returns exactly the symbolic-link entries whose target resolution
succeeds, as `(name, resolved target)` pairs; an entry whose resolution
raises `OSError` is silently omitted, and a missing links root yields the
empty result. -/
theorem read_links_mem_iff (fs : FS) (sort : Bool) (p : String × String) :
    p ∈ read_links fs sort ↔
      (fs.linksDirItExists = true ∧
        ∃ raw, LinkEnt.symlink p.1 raw (some p.2) ∈ fs.links) :=
  read_links_mem_char fs sort p

/-- C2 witness: at the state of the counterexample, the pair
`("bad", target)` is not in the result because no resolvable symlink named
`bad` exists there. -/
theorem read_links_mem_iff_witness :
    ("bad", "/gone/deep") ∈ read_links cFS2 false ↔
      (cFS2.linksDirItExists = true ∧
        ∃ raw, LinkEnt.symlink "bad" raw (some "/gone/deep") ∈ cFS2.links) :=
  read_links_mem_iff cFS2 false ("bad", "/gone/deep")

/-! ## RemoveLinks (`unlink_mod`) lemmas -/

theorem find?_name_eq {l : List LinkEnt} {e : LinkEnt}
    (hnd : (l.map entName).Nodup) (he : e ∈ l) :
    l.find? (fun x => entName x = entName e) = some e := by
  induction l with
  | nil => cases he
  | cons a tl ih =>
    have hnd2 : (entName a :: tl.map entName).Nodup := by simpa using hnd
    rcases List.nodup_cons.mp hnd2 with ⟨hna, hntl⟩
    by_cases ha : entName a = entName e
    · have hea : e = a := by
        rcases List.mem_cons.mp he with h | h
        · exact h
        · exact absurd (ha ▸ List.mem_map_of_mem entName h) hna
      subst hea
      exact List.find?_cons_of_pos _ (by simp [ha])
    · have hetl : e ∈ tl := by
        rcases List.mem_cons.mp he with h | h
        · exact absurd (congrArg entName h).symm ha
        · exact h
      rw [List.find?_cons_of_neg _ (by simp [ha])]
      exact ih hntl hetl

theorem unlinkOne_diskPaths (t : String) (fs : FS) :
    (unlinkOne t fs).2.diskPaths = fs.diskPaths := by
  unfold unlinkOne
  split
  · rfl
  · split <;> rfl

theorem unlinkOne_links_cases (t : String) (fs : FS) :
    (unlinkOne t fs).2.links = fs.links ∨
    (unlinkOne t fs).2.links = fs.links.filter (fun e2 => !(entName e2 = t)) := by
  unfold unlinkOne
  split
  · exact Or.inl rfl
  · split
    · exact Or.inr rfl
    · exact Or.inl rfl

theorem unlinkOne_nodup (t : String) (fs : FS)
    (hnd : (fs.links.map entName).Nodup) :
    ((unlinkOne t fs).2.links.map entName).Nodup := by
  rcases unlinkOne_links_cases t fs with h | h <;> rw [h]
  · exact hnd
  · exact List.Nodup.sublist (List.Sublist.map entName (List.filter_sublist _)) hnd

theorem unlinkOne_mem_preserved {t : String} {fs : FS} {e : LinkEnt}
    (he : e ∈ fs.links) (hne : ¬ entName e = t) :
    e ∈ (unlinkOne t fs).2.links := by
  rcases unlinkOne_links_cases t fs with h | h <;> rw [h]
  · exact he
  · exact List.mem_filter.mpr ⟨he, by simp [hne]⟩

theorem unlinkOne_notFound {t : String} {fs : FS} {e : LinkEnt}
    (hnd : (fs.links.map entName).Nodup) (he : e ∈ fs.links)
    (hname : entName e = t)
    (hno : ¬(linkPathItExists fs e = true ∧ isSymlinkEnt e = true)) :
    unlinkOne t fs = (.notFound, fs) := by
  unfold unlinkOne
  subst hname
  rw [find?_name_eq hnd he]
  dsimp only
  rw [if_neg (by simpa [Bool.and_eq_true] using hno)]

theorem linkPathItExists_unlinkOne (t : String) (fs : FS) (e : LinkEnt) :
    linkPathItExists (unlinkOne t fs).2 e = linkPathItExists fs e := by
  cases e with
  | symlink n tg res =>
    cases res with
    | some r => simp [linkPathItExists, unlinkOne_diskPaths]
    | none => rfl
  | real n => rfl

theorem unlink_mod_untouched :
    ∀ (ts : List String) (fs : FS) (e : LinkEnt),
      (fs.links.map entName).Nodup → e ∈ fs.links →
      ¬(linkPathItExists fs e = true ∧ isSymlinkEnt e = true) →
      e ∈ (unlink_mod ts fs).2.links ∧
        (∀ t ∈ ts, entName e = t →
          (t, UnlinkOutcome.notFound) ∈ (unlink_mod ts fs).1) := by
  intro ts
  induction ts with
  | nil =>
    intro fs e _ he _
    exact ⟨he, by intro t ht; cases ht⟩
  | cons t ts' ih =>
    intro fs e hnd he hno
    by_cases hname : entName e = t
    · have hstep : unlinkOne t fs = (.notFound, fs) :=
        unlinkOne_notFound hnd he hname hno
      have hrec := ih fs e hnd he hno
      constructor
      · show e ∈ (unlink_mod (t :: ts') fs).2.links
        simp only [unlink_mod, hstep]
        exact hrec.1
      · intro t' ht' hname'
        simp only [unlink_mod, hstep]
        rcases List.mem_cons.mp ht' with h | h
        · subst h
          exact List.mem_cons_self _ _
        · exact List.mem_cons_of_mem _ (hrec.2 t' h hname')
    · have hnd' := unlinkOne_nodup t fs hnd
      have he' := unlinkOne_mem_preserved he hname
      have hno' :
          ¬(linkPathItExists (unlinkOne t fs).2 e = true ∧
            isSymlinkEnt e = true) := by
        rw [linkPathItExists_unlinkOne]
        exact hno
      have hrec := ih (unlinkOne t fs).2 e hnd' he' hno'
      constructor
      · show e ∈ (unlink_mod (t :: ts') fs).2.links
        simp only [unlink_mod]
        exact hrec.1
      · intro t' ht' hname'
        simp only [unlink_mod]
        rcases List.mem_cons.mp ht' with h | h
        · exact absurd (h ▸ hname') hname
        · exact List.mem_cons_of_mem _ (hrec.2 t' h hname')

/-- C6: `unlink_mod` never deletes a non-symlink path: a requested name that
denotes a real (non-symlink) entry of the links root is left in place and its
reported outcome is `notFound`. -/
theorem unlink_mod_preserves_nonsymlink (titles : List String) (fs : FS)
    (t : String) (hnd : (fs.links.map entName).Nodup)
    (he : LinkEnt.real t ∈ fs.links) (ht : t ∈ titles) :
    LinkEnt.real t ∈ (unlink_mod titles fs).2.links ∧
      (t, UnlinkOutcome.notFound) ∈ (unlink_mod titles fs).1 := by
  have h := unlink_mod_untouched titles fs (LinkEnt.real t) hnd he
    (fun hc => by simpa [isSymlinkEnt] using hc.2)
  exact ⟨h.1, h.2 t ht rfl⟩

/-- C6 witness: a real directory `moddir` in the links root survives
`unlink_mod ["moddir"]` with outcome `notFound`. -/
theorem unlink_mod_preserves_nonsymlink_witness :
    LinkEnt.real "moddir" ∈ (unlink_mod ["moddir"] cFS6).2.links ∧
      ("moddir", UnlinkOutcome.notFound) ∈ (unlink_mod ["moddir"] cFS6).1 :=
  unlink_mod_preserves_nonsymlink ["moddir"] cFS6 "moddir"
    (by decide) (by decide) (by decide)

/-! ## PruneBroken (`remove_broken_links`) lemmas -/

theorem pruneLoop_eq_filter (disk : List String) :
    ∀ (ps : List (String × String)) (ls : List LinkEnt),
      (pruneLoop disk ps ls).2 =
        ls.filter
          (fun e => !(ps.any (fun p => !disk.contains p.2 && entName e = p.1))) := by
  intro ps
  induction ps with
  | nil =>
    intro ls
    simp [pruneLoop]
  | cons p rest ih =>
    intro ls
    by_cases hc : disk.contains p.2
    · simp only [pruneLoop, if_pos hc]
      rw [ih ls]
      apply List.filter_congr
      intro e _
      simp only [List.any_cons, hc, Bool.not_true, Bool.false_and, Bool.false_or]
    · simp only [pruneLoop, if_neg hc]
      rw [ih (ls.filter (fun e => !(entName e = p.1))), List.filter_filter]
      apply List.filter_congr
      intro e _
      have hcf : disk.contains p.2 = false := Bool.eq_false_iff.mpr hc
      simp only [List.any_cons, hcf, Bool.not_false, Bool.true_and, Bool.not_or]
      exact Bool.and_comm _ _

theorem listed_any_eq_prunable {fs : FS} {e : LinkEnt}
    (hnd : (fs.links.map entName).Nodup) (hdir : fs.linksDirItExists = true)
    (he : e ∈ fs.links) :
    ((read_links fs false).any
        (fun p => !fs.diskPaths.contains p.2 && entName e = p.1)) =
      prunable fs e := by
  cases hpru : prunable fs e with
  | true =>
    cases e with
    | real n => simp [prunable] at hpru
    | symlink n tg res =>
      cases res with
      | none => simp [prunable] at hpru
      | some r =>
        have hr : fs.diskPaths.contains r = false := by
          simpa [prunable] using hpru
        apply List.any_eq_true.mpr
        refine ⟨(n, r), ?_, ?_⟩
        · exact (read_links_mem_char fs false (n, r)).mpr ⟨hdir, tg, he⟩
        · have hr2 : r ∉ fs.diskPaths := by simpa using hr
          simp [hr, hr2, entName]
  | false =>
    apply Bool.eq_false_iff.mpr
    intro hany
    rcases List.any_eq_true.mp hany with ⟨p, hp, hpred⟩
    have hpred2 : fs.diskPaths.contains p.2 = false ∧ entName e = p.1 := by
      simpa [Bool.not_eq_true'] using hpred
    rcases (read_links_mem_char fs false p).mp hp with ⟨_, raw, hmem⟩
    have hee : LinkEnt.symlink p.1 raw (some p.2) = e :=
      List.inj_on_of_nodup_map hnd hmem he hpred2.2.symm
    rw [← hee] at hpru
    simp [prunable] at hpru
    exact absurd hpru (by simpa using hpred2.1)

theorem remove_broken_mem_char {fs : FS}
    (hnd : (fs.links.map entName).Nodup) (hdir : fs.linksDirItExists = true)
    (e : LinkEnt) :
    e ∈ (remove_broken_links fs).2.links ↔
      (e ∈ fs.links ∧ prunable fs e = false) := by
  show e ∈ (pruneLoop fs.diskPaths (read_links fs false) fs.links).2 ↔ _
  rw [pruneLoop_eq_filter]
  constructor
  · intro h
    rcases List.mem_filter.mp h with ⟨he, hpred⟩
    refine ⟨he, ?_⟩
    rw [← listed_any_eq_prunable hnd hdir he]
    simpa using hpred
  · rintro ⟨he, hpru⟩
    apply List.mem_filter.mpr
    refine ⟨he, ?_⟩
    rw [listed_any_eq_prunable hnd hdir he, hpru]
    rfl

/-- C5 counterexample: the entry `odd` is a symbolic link whose target
`/gone/x` does not exist on disk, yet `remove_broken_links` leaves it in
place, because its resolution raised `OSError` and `read_links` (over which
the pruning loop iterates) omits it. -/
theorem remove_broken_links_counterexample :
    isSymlinkEnt (LinkEnt.symlink "odd" "/gone/x" none) = true ∧
    LinkEnt.symlink "odd" "/gone/x" none ∈ cFS5.links ∧
    cFS5.diskPaths.contains "/gone/x" = false ∧
    LinkEnt.symlink "odd" "/gone/x" none ∈ (remove_broken_links cFS5).2.links :=
  ⟨rfl, by decide, by decide, by decide⟩

/-- C5 (amended): `remove_broken_links` removes exactly the symbolic links
whose target resolution succeeded and whose resolved target does not exist on
disk; a symlink whose resolution raised `OSError` is skipped (it is invisible
to `read_links`), and every other entry — in particular every link whose
resolved target exists — is kept unchanged, with its name and target intact. -/
theorem remove_broken_links_mem_iff (fs : FS)
    (hnd : (fs.links.map entName).Nodup) (hdir : fs.linksDirItExists = true) :
    ∀ e, e ∈ (remove_broken_links fs).2.links ↔
      (e ∈ fs.links ∧ prunable fs e = false) :=
  fun e => remove_broken_mem_char hnd hdir e

/-- C5 witness: with one valid link (`ok`) and one dead-target link (`dead`),
pruning keeps `ok` and removes `dead`. -/
theorem remove_broken_links_mem_iff_witness :
    LinkEnt.symlink "ok" "/m/3" (some "/m/3")
        ∈ (remove_broken_links cFS5).2.links ∧
      LinkEnt.symlink "dead" "/m/4" (some "/m/4")
        ∉ (remove_broken_links cFS5).2.links :=
  ⟨(remove_broken_links_mem_iff cFS5 (by decide) rfl _).mpr
      ⟨by decide, by decide⟩,
   fun h => absurd
      ((remove_broken_links_mem_iff cFS5 (by decide) rfl _).mp h).2
      (by decide)⟩

/-- C7: a requested name that denotes a dangling symbolic link (resolution
succeeded but the resolved target does not exist) is reported `notFound` by
`unlink_mod` and is not removed, because `link_path.exists()` follows the
link; such a link is removed by `remove_broken_links` instead. -/
theorem unlink_mod_dangling_notFound (titles : List String) (fs : FS)
    (t raw r : String)
    (hnd : (fs.links.map entName).Nodup)
    (he : LinkEnt.symlink t raw (some r) ∈ fs.links)
    (hgone : fs.diskPaths.contains r = false)
    (ht : t ∈ titles) (hdir : fs.linksDirItExists = true) :
    LinkEnt.symlink t raw (some r) ∈ (unlink_mod titles fs).2.links ∧
      (t, UnlinkOutcome.notFound) ∈ (unlink_mod titles fs).1 ∧
      LinkEnt.symlink t raw (some r) ∉ (remove_broken_links fs).2.links := by
  have hno : ¬(linkPathItExists fs (LinkEnt.symlink t raw (some r)) = true ∧
      isSymlinkEnt (LinkEnt.symlink t raw (some r)) = true) := by
    intro hc
    have h1 : fs.diskPaths.contains r = true := hc.1
    rw [hgone] at h1
    cases h1
  have h := unlink_mod_untouched titles fs _ hnd he hno
  refine ⟨h.1, h.2 t ht rfl, ?_⟩
  intro hmem
  have h2 := (remove_broken_mem_char hnd hdir _).mp hmem
  have hpru : prunable fs (LinkEnt.symlink t raw (some r)) = true := by
    have hr2 : r ∉ fs.diskPaths := by simpa using hgone
    simp [prunable, hgone, hr2]
  rw [hpru] at h2
  cases h2.2

/-- C7 witness: the dangling link `dang` survives `unlink_mod ["dang"]` with
outcome `notFound`, and `remove_broken_links` does remove it. -/
theorem unlink_mod_dangling_notFound_witness :
    LinkEnt.symlink "dang" "/m/9" (some "/m/9")
        ∈ (unlink_mod ["dang"] cFS7).2.links ∧
      ("dang", UnlinkOutcome.notFound) ∈ (unlink_mod ["dang"] cFS7).1 ∧
      LinkEnt.symlink "dang" "/m/9" (some "/m/9")
        ∉ (remove_broken_links cFS7).2.links :=
  unlink_mod_dangling_notFound ["dang"] cFS7 "dang" "/m/9" "/m/9"
    (by decide) (by decide) rfl (by decide) rfl

/-! ## CreateLink (`link_mod`) lemmas -/

theorem link_mod_alreadyLinked_of {resolve : String → Option String}
    {id t : String} {fs : FS}
    (hname : linkName resolve id = some t) (hne : ¬ t = "")
    (hsrc : sourceExists fs id = true) (hdir : fs.linksDirItExists = true)
    (hex : fs.links.any (fun e => entName e = t) = true) :
    link_mod resolve id fs = (.alreadyLinked, fs) := by
  unfold link_mod
  rw [hname]
  dsimp only
  rw [if_neg hne, if_neg (by simp [hsrc]), if_neg (by simp [hdir]), if_pos hex]

theorem link_mod_created_inv {resolve : String → Option String}
    {id : String} {fs fs' : FS}
    (h : link_mod resolve id fs = (.created, fs')) :
    ∃ t, linkName resolve id = some t ∧ ¬ t = "" ∧
      sourceExists fs id = true ∧ fs.linksDirItExists = true ∧
      fs.links.any (fun e => entName e = t) = false ∧
      fs' = { fs with links :=
        fs.links ++
          [.symlink t (modsChild fs id) (some (modsChild fs id))] } := by
  unfold link_mod at h
  cases hname : linkName resolve id with
  | none => rw [hname] at h; simp at h
  | some t =>
    rw [hname] at h
    dsimp only at h
    refine ⟨t, rfl, ?_⟩
    split_ifs at h with h1 h2 h3 h4
    · simp at h
    · simp at h
    · simp at h
    · simp at h
    · rw [Prod.mk.injEq] at h
      exact ⟨h1, by simpa using h2, by simpa using h3,
        Bool.eq_false_iff.mpr h4, h.2.symm⟩

/-- C3: `link_mod` is idempotent with respect to an existing link name: when
an entry of the computed name already exists in the links root — whatever its
kind or target — the outcome is `alreadyLinked` (the `errno.EEXIST` success
branch) and the state is unchanged; and after a `created` outcome, running
`link_mod` again for the same identifier with the same resolver yields
`alreadyLinked` with the state unchanged and exactly one entry of that name. -/
theorem link_mod_idempotent (resolve : String → Option String) (id : String)
    (fs : FS) :
    (∀ t, linkName resolve id = some t → ¬ t = "" →
        sourceExists fs id = true → fs.linksDirItExists = true →
        fs.links.any (fun e => entName e = t) = true →
        link_mod resolve id fs = (.alreadyLinked, fs)) ∧
    (∀ fs', link_mod resolve id fs = (.created, fs') →
        link_mod resolve id fs' = (.alreadyLinked, fs') ∧
        ∀ t, linkName resolve id = some t →
          fs'.links.countP (fun e => entName e = t) = 1) := by
  constructor
  · intro t hname hne hsrc hdir hex
    exact link_mod_alreadyLinked_of hname hne hsrc hdir hex
  · intro fs' h
    rcases link_mod_created_inv h with ⟨t, hname, hne, hsrc, hdir, hany, hfs⟩
    have h0 : fs.links.countP (fun e => entName e = t) = 0 :=
      List.countP_eq_zero.mpr (fun a ha hpa =>
        (List.any_eq_false.mp hany a ha) hpa)
    constructor
    · apply link_mod_alreadyLinked_of hname hne
      · rw [hfs]; exact hsrc
      · rw [hfs]; exact hdir
      · rw [hfs]
        simp [List.any_append, entName]
    · intro t' hname'
      rw [hname] at hname'
      injection hname' with hh
      subst hh
      rw [hfs]
      show (fs.links ++ [_]).countP _ = 1
      rw [List.countP_append, h0]
      simp [entName]

/-- C3 witness: creating the link for identifier `7` and retrying yields
`created` then `alreadyLinked`, with exactly one entry named `Foo_Bar`. -/
theorem link_mod_idempotent_witness :
    link_mod cRes "7" (link_mod cRes "7" cFS3).2
        = (.alreadyLinked, (link_mod cRes "7" cFS3).2) ∧
      (link_mod cRes "7" cFS3).2.links.countP
          (fun e => entName e = "Foo_Bar") = 1 := by
  have h := (link_mod_idempotent cRes "7" cFS3).2 (link_mod cRes "7" cFS3).2 rfl
  exact ⟨h.1, h.2 "Foo_Bar" rfl⟩

/-- C4 counterexample: the content entry `5` exists as a regular file, not a
directory, yet `link_mod` does not report `sourceMissing`: it creates the
link and mutates the links root, because the source checks
`source_path.exists()` rather than `source_path.is_dir()`. -/
theorem link_mod_nondirectory_source_counterexample :
    ("5", true) ∉ cFS4.modsEntries ∧
    ("5", false) ∈ cFS4.modsEntries ∧
    (link_mod cRes4 "5" cFS4).1 = .created ∧
    (link_mod cRes4 "5" cFS4).2.links ≠ cFS4.links :=
  ⟨by decide, by decide, by decide, by decide⟩

/-- C4 (amended): `link_mod` performs no state mutation on any failure path,
in this step order: a failed resolution yields `unresolved` with no mutation;
an empty sanitized name yields `unresolved`, treated identically to
resolution failure; if `contentRoot/identifier` does not exist (as an entry
of any kind — the code does not require a directory) the outcome is
`sourceMissing` with no mutation; only when every check passes is the symlink
created, and every outcome other than `created` leaves the state unchanged. -/
theorem link_mod_failure_paths (resolve : String → Option String)
    (id : String) (fs : FS) :
    (linkName resolve id = none → link_mod resolve id fs = (.unresolved, fs)) ∧
    (linkName resolve id = some "" →
      link_mod resolve id fs = (.unresolved, fs)) ∧
    (∀ t, linkName resolve id = some t → ¬ t = "" →
      sourceExists fs id = false →
      link_mod resolve id fs = (.sourceMissing, fs)) ∧
    (∀ o fs', link_mod resolve id fs = (o, fs') → ¬ o = .created →
      fs' = fs) := by
  refine ⟨?_, ?_, ?_, ?_⟩
  · intro h
    unfold link_mod
    rw [h]
  · intro h
    unfold link_mod
    rw [h]
    dsimp only
    rw [if_pos rfl]
  · intro t h hne hsrc
    unfold link_mod
    rw [h]
    dsimp only
    rw [if_neg hne, if_pos (by simp [hsrc])]
  · intro o fs' h hno
    unfold link_mod at h
    cases hname : linkName resolve id with
    | none =>
      rw [hname] at h
      cases h
      rfl
    | some t =>
      rw [hname] at h
      dsimp only at h
      split_ifs at h
      · cases h; rfl
      · cases h; rfl
      · cases h; rfl
      · cases h; rfl
      · cases h; exact absurd rfl hno

/-- C4 witness: an unknown identifier resolves to `unresolved` with no
mutation, and a known identifier without a content entry resolves to
`sourceMissing` with no mutation. -/
theorem link_mod_failure_paths_witness :
    link_mod cRes4 "7" cFS3 = (.unresolved, cFS3) ∧
      link_mod cRes4 "5" cFS3 = (.sourceMissing, cFS3) :=
  ⟨(link_mod_failure_paths cRes4 "7" cFS3).1 rfl,
   (link_mod_failure_paths cRes4 "5" cFS3).2.2.1 "mod_five" rfl
      (by decide) rfl⟩

end A3ModLink
